import Mathlib

/-!
Verification of `sim/gen_stimuli.py`: a script that parses two command-line
arguments (a count `RESERVOIR_SIZE` and an output path `FILE_NAME`), generates
that many random 32-bit values, and writes each as a bare lowercase hex string
followed by a newline to the output file, truncating any prior content.

The script is embedded shallowly: `random.randint(0, 2**32-1)` becomes an
oracle `draws : Nat → Nat` (with the range contract as a hypothesis where a
claim needs it), Python's `int()` becomes `pyInt`, `hex(n)[2:]` becomes
`hexChars`, and the run's effect on the file system is a pure `RunResult`
applied to a map from paths to contents.
-/

namespace GenStimuli

/-- The character Python's `hex` uses for the hex digit `d` (`0`-`9`, `a`-`f`). -/
def hexDigitChar (d : Nat) : Char :=
  if d < 10 then Char.ofNat (48 + d) else Char.ofNat (87 + d)

/-- Accumulator version of hex rendering: prepends the digits of `n`
(most significant first) to `acc`; renders nothing for `n = 0`. -/
def toHexAux (n : Nat) (acc : List Char) : List Char :=
  if h : n = 0 then acc
  else toHexAux (n / 16) (hexDigitChar (n % 16) :: acc)
termination_by n
decreasing_by exact Nat.div_lt_self (Nat.pos_of_ne_zero h) (by norm_num)

/-- The characters of Python's `hex(n)[2:]` for `n ≥ 0`: shortest-form
lowercase hexadecimal, with `"0"` for zero. -/
def hexChars (n : Nat) : List Char :=
  if n = 0 then ['0'] else toHexAux n []

/-- Number of hex digits of `n` (0 for `n = 0`). -/
def numHexDigits (n : Nat) : Nat :=
  if n = 0 then 0 else numHexDigits (n / 16) + 1
termination_by n
decreasing_by exact Nat.div_lt_self (Nat.pos_of_ne_zero (by assumption)) (by norm_num)

/-- A lowercase hex digit character: the class `[0-9a-f]`. -/
def isHexLower (c : Char) : Bool :=
  ('0' ≤ c && c ≤ '9') || ('a' ≤ c && c ≤ 'f')

/-- Numeric value of a hex digit character. -/
def hexCharVal (c : Char) : Nat :=
  if c ≤ '9' then c.toNat - 48 else c.toNat - 87

/-- Value of a hex digit string, folding from an accumulator. -/
def hexValFrom (a : Nat) : List Char → Nat
  | [] => a
  | c :: cs => hexValFrom (a * 16 + hexCharVal c) cs

/-- Value of a hex digit string interpreted as a hexadecimal number. -/
def hexVal (cs : List Char) : Nat := hexValFrom 0 cs

/-- ASCII whitespace stripped by Python's `int()`. -/
def isPyWs (c : Char) : Bool :=
  c = ' ' || c = Char.ofNat 9 || c = Char.ofNat 10 || c = Char.ofNat 13
    || c = Char.ofNat 11 || c = Char.ofNat 12

/-- Drop leading whitespace characters. -/
def stripLeading : List Char → List Char
  | [] => []
  | c :: cs => if isPyWs c then stripLeading cs else c :: cs

/-- Strip whitespace from both ends, as Python's `int()` does. -/
def stripWs (cs : List Char) : List Char :=
  stripLeading ((stripLeading cs.reverse).reverse)

/-- Decimal digit character. -/
def isDecDigit (c : Char) : Bool := '0' ≤ c && c ≤ '9'

/-- Numeric value of a decimal digit character. -/
def digitVal (c : Char) : Nat := c.toNat - 48

/-- After the first digit: digits with single underscores allowed only
between digits, as in Python's integer literal grammar. -/
def pyDigitsAux : Nat → List Char → Option Nat
  | a, [] => some a
  | a, c :: cs =>
    if c = Char.ofNat 95 then
      match cs with
      | [] => none
      | d :: ds => if isDecDigit d then pyDigitsAux (a * 10 + digitVal d) ds else none
    else if isDecDigit c then pyDigitsAux (a * 10 + digitVal c) cs else none

/-- An unsigned decimal digit run (`digit (["_"] digit)*`), as accepted by
Python's `int()` after the optional sign. -/
def pyDigits : List Char → Option Nat
  | [] => none
  | c :: cs => if isDecDigit c then pyDigitsAux (digitVal c) cs else none

/-- Python's `int(s)` for base 10: strip whitespace, optional sign, digits
with underscore separators; `none` models a `ValueError`. -/
def pyInt (s : String) : Option Int :=
  match stripWs s.data with
  | '+' :: cs => (pyDigits cs).map (fun n => (n : Int))
  | '-' :: cs => (pyDigits cs).map (fun n => -(n : Int))
  | cs => (pyDigits cs).map (fun n => (n : Int))

/-- The usage line the script prints on a wrong argument count. -/
def usageMessage : String := "Usage: gen_stimuli.py RESERVOIR_SIZE FILE_NAME"

/-- Observable outcome of one run: exit status, lines printed to stdout, and
the file written (path and full content), if any. -/
structure RunResult where
  exitCode : Nat
  printed : List String
  file : Option (String × List Char)
deriving DecidableEq

/-- The content the writing loop produces: for each `i` in
`range RESERVOIR_SIZE`, the hex rendering of the `i`-th draw plus `'\n'`. -/
def outputChars (n : Nat) (draws : Nat → Nat) : List Char :=
  ((List.range n).map (fun i => hexChars (draws i) ++ ['\n'])).flatten

/-- The script, over the arguments after the program name (`len(sys.argv) == 3`
means exactly two of them) and the oracle of random draws. -/
def gen_stimuli (args : List String) (draws : Nat → Nat) : RunResult :=
  match args with
  | [sizeArg, fileName] =>
    match pyInt sizeArg with
    | some size =>
      { exitCode := 0, printed := [],
        file := some (fileName, outputChars size.toNat draws) }
    | none => { exitCode := 1, printed := [], file := none }
  | _ => { exitCode := 1, printed := [usageMessage], file := none }

/-- Effect of a run on a file system (a map from paths to contents): opening
with mode `w` replaces the content at the written path; other paths and
failed runs leave the map unchanged. -/
def applyRun (fs : String → Option (List Char)) (r : RunResult) :
    String → Option (List Char) :=
  fun p =>
    match r.file with
    | some (q, content) => if p = q then some content else fs p
    | none => fs p

/-- Split a character buffer into its lines at `'\n'`; an unterminated final
run of characters also counts as a line. -/
def splitLinesAux (cur : List Char) : List Char → List (List Char)
  | [] => if cur.isEmpty then [] else [cur.reverse]
  | c :: cs =>
    if c = '\n' then cur.reverse :: splitLinesAux [] cs
    else splitLinesAux (c :: cur) cs

/-- The lines of a character buffer. -/
def splitLines (cs : List Char) : List (List Char) := splitLinesAux [] cs

/-! ### Unfolding lemmas for the well-founded definitions -/

theorem toHexAux_zero (acc : List Char) : toHexAux 0 acc = acc := by
  rw [toHexAux]
  simp

theorem toHexAux_pos (n : Nat) (acc : List Char) (h : n ≠ 0) :
    toHexAux n acc = toHexAux (n / 16) (hexDigitChar (n % 16) :: acc) := by
  rw [toHexAux]
  simp [h]

theorem numHexDigits_zero : numHexDigits 0 = 0 := by
  rw [numHexDigits]
  simp

theorem numHexDigits_pos (n : Nat) (h : n ≠ 0) :
    numHexDigits n = numHexDigits (n / 16) + 1 := by
  rw [numHexDigits]
  simp [h]

/-! ### Facts about single hex digits -/

theorem isHexLower_hexDigitChar (d : Nat) (h : d < 16) :
    isHexLower (hexDigitChar d) = true := by
  interval_cases d <;> decide

theorem hexCharVal_hexDigitChar (d : Nat) (h : d < 16) :
    hexCharVal (hexDigitChar d) = d := by
  interval_cases d <;> decide

theorem hexDigitChar_ne_zero_char (d : Nat) (h : d < 16) (h0 : d ≠ 0) :
    hexDigitChar d ≠ '0' := by
  interval_cases d <;> simp_all <;> decide

/-! ### Structure of the rendered hex string -/

theorem toHexAux_acc (n : Nat) :
    ∀ acc, toHexAux n acc = toHexAux n [] ++ acc := by
  induction n using Nat.strong_induction_on with
  | _ n ih =>
    intro acc
    by_cases h : n = 0
    · subst h; simp [toHexAux_zero]
    · rw [toHexAux_pos n acc h, toHexAux_pos n [] h,
        ih (n / 16) (Nat.div_lt_self (Nat.pos_of_ne_zero h) (by norm_num)) (hexDigitChar (n % 16) :: acc),
        ih (n / 16) (Nat.div_lt_self (Nat.pos_of_ne_zero h) (by norm_num)) [hexDigitChar (n % 16)]]
      simp

theorem mem_toHexAux (n : Nat) :
    ∀ acc c, c ∈ toHexAux n acc → c ∈ acc ∨ isHexLower c = true := by
  induction n using Nat.strong_induction_on with
  | _ n ih =>
    intro acc c hc
    by_cases h : n = 0
    · subst h; rw [toHexAux_zero] at hc; exact Or.inl hc
    · rw [toHexAux_pos n acc h] at hc
      rcases ih (n / 16) (Nat.div_lt_self (Nat.pos_of_ne_zero h) (by norm_num)) _ c hc with hmem | hhex
      · rcases List.mem_cons.mp hmem with rfl | hmem
        · exact Or.inr (isHexLower_hexDigitChar _ (Nat.mod_lt _ (by norm_num)))
        · exact Or.inl hmem
      · exact Or.inr hhex

theorem mem_hexChars (n : Nat) (c : Char) (hc : c ∈ hexChars n) :
    isHexLower c = true := by
  unfold hexChars at hc
  by_cases h : n = 0
  · simp [h] at hc; subst hc; decide
  · simp [h] at hc
    rcases mem_toHexAux n [] c hc with hmem | hhex
    · simp at hmem
    · exact hhex

theorem newline_not_mem_hexChars (n : Nat) : '\n' ∉ hexChars n := by
  intro hc
  have := mem_hexChars n '\n' hc
  simp [isHexLower] at this

theorem toHexAux_length (n : Nat) :
    ∀ acc, (toHexAux n acc).length = numHexDigits n + acc.length := by
  induction n using Nat.strong_induction_on with
  | _ n ih =>
    intro acc
    by_cases h : n = 0
    · subst h; rw [toHexAux_zero, numHexDigits_zero]; simp
    · rw [toHexAux_pos n acc h, numHexDigits_pos n h,
        ih (n / 16) (Nat.div_lt_self (Nat.pos_of_ne_zero h) (by norm_num))]
      simp
      omega

theorem hexValFrom_toHexAux (n : Nat) :
    ∀ a acc, hexValFrom a (toHexAux n acc)
      = hexValFrom (a * 16 ^ numHexDigits n + n) acc := by
  induction n using Nat.strong_induction_on with
  | _ n ih =>
    intro a acc
    by_cases h : n = 0
    · subst h; rw [toHexAux_zero, numHexDigits_zero]; simp
    · rw [toHexAux_pos n acc h,
        ih (n / 16) (Nat.div_lt_self (Nat.pos_of_ne_zero h) (by norm_num)),
        numHexDigits_pos n h]
      show hexValFrom ((a * 16 ^ numHexDigits (n / 16) + n / 16) * 16
        + hexCharVal (hexDigitChar (n % 16))) acc = _
      rw [hexCharVal_hexDigitChar _ (Nat.mod_lt _ (by norm_num))]
      congr 1
      have hdm := Nat.div_add_mod n 16
      ring_nf
      omega

theorem hexVal_hexChars (n : Nat) : hexVal (hexChars n) = n := by
  unfold hexChars hexVal
  by_cases h : n = 0
  · simp [h, hexValFrom, hexCharVal]
  · simp [h, hexValFrom_toHexAux n 0 []]
    rfl

theorem numHexDigits_pos_of_ne_zero (n : Nat) (h : n ≠ 0) : 0 < numHexDigits n := by
  rw [numHexDigits_pos n h]
  omega

theorem hexChars_ne_nil (n : Nat) : hexChars n ≠ [] := by
  unfold hexChars
  by_cases h : n = 0
  · simp [h]
  · simp [h]
    intro hnil
    have := toHexAux_length n []
    rw [hnil] at this
    simp at this
    have := numHexDigits_pos_of_ne_zero n h
    omega

theorem toHexAux_head_ne_zero (n : Nat) :
    n ≠ 0 → ∀ c, (toHexAux n []).head? = some c → c ≠ '0' := by
  induction n using Nat.strong_induction_on with
  | _ n ih =>
    intro h0 c hc
    rw [toHexAux_pos n [] h0, toHexAux_acc (n / 16)] at hc
    by_cases hq : n / 16 = 0
    · rw [hq, toHexAux_zero] at hc
      simp at hc
      subst hc
      have hnd : n < 16 := by
        by_contra hge
        omega
      have hlt : n % 16 = n := Nat.mod_eq_of_lt hnd
      exact hexDigitChar_ne_zero_char _ (Nat.mod_lt _ (by norm_num)) (by omega)
    · rcases hx : toHexAux (n / 16) [] with _ | ⟨d, ds⟩
      · exfalso
        have hlen := toHexAux_length (n / 16) []
        rw [hx] at hlen
        simp at hlen
        have := numHexDigits_pos_of_ne_zero (n / 16) hq
        omega
      · rw [hx] at hc
        simp at hc
        subst hc
        exact ih (n / 16) (Nat.div_lt_self (Nat.pos_of_ne_zero h0) (by norm_num)) hq _
          (by rw [hx]; rfl)

theorem head_hexChars_ne_zero_char (n : Nat) (h : n ≠ 0) :
    ∀ c, (hexChars n).head? = some c → c ≠ '0' := by
  unfold hexChars
  rw [if_neg h]
  exact toHexAux_head_ne_zero n h

/-! ### Length bound: values below `16 ^ k` need at most `k` digits -/

theorem numHexDigits_le (k : Nat) :
    ∀ n, n < 16 ^ k → numHexDigits n ≤ k := by
  induction k with
  | zero =>
    intro n hn
    simp at hn
    simp [hn, numHexDigits_zero]
  | succ k ih =>
    intro n hn
    by_cases h : n = 0
    · simp [h, numHexDigits_zero]
    · rw [numHexDigits_pos n h]
      have : n / 16 < 16 ^ k := by
        rw [Nat.div_lt_iff_lt_mul (by norm_num)]
        calc n < 16 ^ (k + 1) := hn
        _ = 16 ^ k * 16 := by ring
      exact Nat.succ_le_succ (ih _ this)

theorem hexChars_length_le (n : Nat) (h : n < 2 ^ 32) :
    (hexChars n).length ≤ 8 := by
  unfold hexChars
  by_cases h0 : n = 0
  · simp [h0]
  · simp [h0, toHexAux_length n []]
    exact numHexDigits_le 8 n (by norm_num at h ⊢; omega)

/-! ### Line splitting -/

theorem splitLinesAux_line (l : List Char) :
    ∀ cur rest, '\n' ∉ l →
      splitLinesAux cur (l ++ '\n' :: rest)
        = (cur.reverse ++ l) :: splitLinesAux [] rest := by
  induction l with
  | nil =>
    intro cur rest _
    simp [splitLinesAux]
  | cons c l ih =>
    intro cur rest hl
    have hc : c ≠ '\n' := fun hcx => hl (by simp [hcx])
    have step : splitLinesAux cur ((c :: l) ++ '\n' :: rest)
        = splitLinesAux (c :: cur) (l ++ '\n' :: rest) := by
      rw [List.cons_append]
      show (if c = '\n' then cur.reverse :: splitLinesAux [] (l ++ '\n' :: rest)
        else splitLinesAux (c :: cur) (l ++ '\n' :: rest)) = _
      rw [if_neg hc]
    rw [step, ih (c :: cur) rest (fun hm => hl (List.mem_cons_of_mem _ hm))]
    simp

theorem splitLines_flatten (ls : List (List Char))
    (h : ∀ l ∈ ls, '\n' ∉ l) :
    splitLines ((ls.map (fun l => l ++ ['\n'])).flatten) = ls := by
  induction ls with
  | nil => simp [splitLines, splitLinesAux]
  | cons l ls ih =>
    simp only [List.map_cons, List.flatten_cons, List.append_assoc, List.singleton_append]
    unfold splitLines
    rw [splitLinesAux_line l [] _ (h l (List.mem_cons_self l ls))]
    simp only [List.reverse_nil, List.nil_append]
    exact congrArg _ (ih (fun m hm => h m (List.mem_cons_of_mem _ hm)))

theorem splitLines_outputChars (n : Nat) (draws : Nat → Nat) :
    splitLines (outputChars n draws)
      = (List.range n).map (fun i => hexChars (draws i)) := by
  unfold outputChars
  rw [show (List.range n).map (fun i => hexChars (draws i) ++ ['\n'])
      = ((List.range n).map (fun i => hexChars (draws i))).map (fun l => l ++ ['\n']) by
    rw [List.map_map]
    rfl]
  exact splitLines_flatten _ (by
    intro l hl
    simp at hl
    rcases hl with ⟨i, _, rfl⟩
    exact newline_not_mem_hexChars _)

theorem outputChars_zero (draws : Nat → Nat) : outputChars 0 draws = [] := by
  simp [outputChars]

theorem outputChars_succ (n : Nat) (draws : Nat → Nat) :
    outputChars (n + 1) draws
      = outputChars n draws ++ (hexChars (draws n) ++ ['\n']) := by
  unfold outputChars
  rw [List.range_succ]
  simp

theorem outputChars_getLast (n : Nat) (draws : Nat → Nat) (h : n ≠ 0) :
    (outputChars n draws).getLast? = some '\n' := by
  rcases n with _ | m
  · exact absurd rfl h
  · rw [outputChars_succ, show outputChars m draws ++ (hexChars (draws m) ++ ['\n'])
      = (outputChars m draws ++ hexChars (draws m)) ++ ['\n'] by simp]
    exact List.getLast?_concat _

/-! ### Claims -/

/-- C1: for every non-negative count parsed from the first argument and any
output path, a successful run exits 0 and writes a file whose lines are
exactly `count` in number, one per generated value, in generation order. -/
theorem claim_C1_line_count (sizeArg path : String) (draws : Nat → Nat) (n : Nat)
    (h : pyInt sizeArg = some (n : Int)) :
    (gen_stimuli [sizeArg, path] draws).exitCode = 0 ∧
    (gen_stimuli [sizeArg, path] draws).file = some (path, outputChars n draws) ∧
    splitLines (outputChars n draws) = (List.range n).map (fun i => hexChars (draws i)) ∧
    (splitLines (outputChars n draws)).length = n := by
  refine ⟨by simp [gen_stimuli, h], by simp [gen_stimuli, h], splitLines_outputChars n draws, ?_⟩
  rw [splitLines_outputChars]
  simp

theorem claim_C1_witness :
    pyInt "2" = some ((2 : Nat) : Int) ∧
    ((gen_stimuli ["2", "out.txt"] (fun _ => 0)).exitCode = 0 ∧
     (gen_stimuli ["2", "out.txt"] (fun _ => 0)).file
       = some ("out.txt", outputChars 2 (fun _ => 0)) ∧
     splitLines (outputChars 2 (fun _ => 0))
       = (List.range 2).map (fun i => hexChars ((fun _ => 0) i)) ∧
     (splitLines (outputChars 2 (fun _ => 0))).length = 2) :=
  ⟨by decide, claim_C1_line_count "2" "out.txt" (fun _ => 0) 2 (by decide)⟩

/-- C2: on any successful run, every line of the output file is a nonempty
string of characters from `[0-9a-f]`, and its value as a hexadecimal number
lies in `[0, 4294967295]` (given `randint`'s range contract on the draws). -/
theorem claim_C2_hex_lines (sizeArg path : String) (draws : Nat → Nat) (z : Int)
    (h : pyInt sizeArg = some z) (hd : ∀ i, draws i ≤ 2 ^ 32 - 1) :
    ∃ content, (gen_stimuli [sizeArg, path] draws).file = some (path, content) ∧
      ∀ line ∈ splitLines content,
        line ≠ [] ∧ (∀ c ∈ line, isHexLower c = true) ∧ hexVal line ≤ 2 ^ 32 - 1 := by
  refine ⟨outputChars z.toNat draws, by simp [gen_stimuli, h], ?_⟩
  intro line hline
  rw [splitLines_outputChars] at hline
  simp at hline
  obtain ⟨i, hi, rfl⟩ := hline
  exact ⟨hexChars_ne_nil _, fun c hc => mem_hexChars _ c hc,
    by rw [hexVal_hexChars]; exact hd i⟩

theorem claim_C2_witness :
    pyInt "3" = some (3 : Int) ∧ (∀ i : Nat, (fun _ => 0) i ≤ 2 ^ 32 - 1) ∧
    (∃ content, (gen_stimuli ["3", "out.txt"] (fun _ => 0)).file
        = some ("out.txt", content) ∧
      ∀ line ∈ splitLines content,
        line ≠ [] ∧ (∀ c ∈ line, isHexLower c = true) ∧ hexVal line ≤ 2 ^ 32 - 1) :=
  ⟨by decide, fun i => Nat.zero_le _,
    claim_C2_hex_lines "3" "out.txt" (fun _ => 0) 3 (by decide) (fun i => Nat.zero_le _)⟩

/-- C3: each value is written in shortest-form lowercase hex — no prefix, no
padding, no leading zero unless the value is zero — followed by a single
newline, and the final character of a nonempty file is also a newline. -/
theorem claim_C3_format (sizeArg path : String) (draws : Nat → Nat) (z : Int)
    (h : pyInt sizeArg = some z) :
    ∃ content, (gen_stimuli [sizeArg, path] draws).file = some (path, content) ∧
      content = ((List.range z.toNat).map (fun i => hexChars (draws i) ++ ['\n'])).flatten ∧
      (∀ i, hexVal (hexChars (draws i)) = draws i) ∧
      (∀ i, ∀ c ∈ hexChars (draws i), isHexLower c = true) ∧
      (∀ i, draws i ≠ 0 → ∀ c, (hexChars (draws i)).head? = some c → c ≠ '0') ∧
      hexChars 0 = ['0'] ∧
      (content ≠ [] → content.getLast? = some '\n') := by
  refine ⟨outputChars z.toNat draws, by simp [gen_stimuli, h], rfl,
    fun i => hexVal_hexChars _, fun i c hc => mem_hexChars _ c hc,
    fun i hi => head_hexChars_ne_zero_char _ hi, rfl, ?_⟩
  intro hne
  by_cases hz : z.toNat = 0
  · rw [hz, outputChars_zero] at hne
    exact absurd rfl hne
  · exact outputChars_getLast _ draws hz

theorem claim_C3_witness :
    pyInt "1" = some (1 : Int) ∧
    (∃ content, (gen_stimuli ["1", "out.txt"] (fun _ => 0)).file
        = some ("out.txt", content) ∧
      content = ((List.range (Int.toNat 1)).map
        (fun i => hexChars ((fun _ => 0) i) ++ ['\n'])).flatten ∧
      (∀ i : Nat, hexVal (hexChars ((fun _ => 0) i)) = (fun _ => 0) i) ∧
      (∀ i : Nat, ∀ c ∈ hexChars ((fun _ => 0) i), isHexLower c = true) ∧
      (∀ i : Nat, (fun _ => 0) i ≠ 0 →
        ∀ c, (hexChars ((fun _ => 0) i)).head? = some c → c ≠ '0') ∧
      hexChars 0 = ['0'] ∧
      (content ≠ [] → content.getLast? = some '\n')) :=
  ⟨by decide, claim_C3_format "1" "out.txt" (fun _ => 0) 1 (by decide)⟩

/-- C4: with an argument count other than two, the run prints the usage line
`Usage: gen_stimuli.py RESERVOIR_SIZE FILE_NAME`, exits non-zero, and leaves
every path of any file system unchanged. -/
theorem claim_C4_usage (args : List String) (draws : Nat → Nat) (h : args.length ≠ 2) :
    (gen_stimuli args draws).exitCode ≠ 0 ∧
    (gen_stimuli args draws).printed = [usageMessage] ∧
    (gen_stimuli args draws).file = none ∧
    ∀ fs p, applyRun fs (gen_stimuli args draws) p = fs p := by
  have key : gen_stimuli args draws
      = { exitCode := 1, printed := [usageMessage], file := none } := by
    rcases args with _ | ⟨a, _ | ⟨b, _ | ⟨c, rest⟩⟩⟩
    · rfl
    · rfl
    · simp at h
    · rfl
  rw [key]
  exact ⟨by simp, rfl, rfl, fun fs p => rfl⟩

theorem claim_C4_witness :
    ([] : List String).length ≠ 2 ∧
    ((gen_stimuli [] (fun _ => 0)).exitCode ≠ 0 ∧
     (gen_stimuli [] (fun _ => 0)).printed = [usageMessage] ∧
     (gen_stimuli [] (fun _ => 0)).file = none ∧
     ∀ fs p, applyRun fs (gen_stimuli [] (fun _ => 0)) p = fs p) :=
  ⟨by decide, claim_C4_usage [] (fun _ => 0) (by decide)⟩

/-- C5: when the first argument does not parse as a base-10 integer, the run
exits non-zero, prints no usage line, writes no file, and leaves every path
of any file system unchanged (the file is opened only after parsing). -/
theorem claim_C5_parse_error (a path : String) (draws : Nat → Nat)
    (h : pyInt a = none) :
    (gen_stimuli [a, path] draws).exitCode ≠ 0 ∧
    (gen_stimuli [a, path] draws).file = none ∧
    ∀ fs p, applyRun fs (gen_stimuli [a, path] draws) p = fs p := by
  have key : gen_stimuli [a, path] draws
      = { exitCode := 1, printed := [], file := none } := by
    simp [gen_stimuli, h]
  rw [key]
  exact ⟨by simp, rfl, fun fs p => rfl⟩

theorem claim_C5_witness :
    pyInt "abc" = none ∧
    ((gen_stimuli ["abc", "out.txt"] (fun _ => 0)).exitCode ≠ 0 ∧
     (gen_stimuli ["abc", "out.txt"] (fun _ => 0)).file = none ∧
     ∀ fs p, applyRun fs (gen_stimuli ["abc", "out.txt"] (fun _ => 0)) p = fs p) :=
  ⟨by decide, claim_C5_parse_error "abc" "out.txt" (fun _ => 0) (by decide)⟩

/-- C6: a run with count 0 and a writable path exits 0 and produces an empty
file with zero lines. -/
theorem claim_C6_zero_count (a path : String) (draws : Nat → Nat)
    (h : pyInt a = some 0) :
    gen_stimuli [a, path] draws
      = { exitCode := 0, printed := [], file := some (path, []) } ∧
    splitLines ([] : List Char) = [] := by
  refine ⟨?_, rfl⟩
  simp [gen_stimuli, h]
  exact outputChars_zero draws

theorem claim_C6_witness :
    pyInt "0" = some (0 : Int) ∧
    (gen_stimuli ["0", "out.txt"] (fun _ => 0)
      = { exitCode := 0, printed := [], file := some ("out.txt", []) } ∧
     splitLines ([] : List Char) = []) :=
  ⟨by decide, claim_C6_zero_count "0" "out.txt" (fun _ => 0) (by decide)⟩

/-- C7: on every successful run, whatever content the file system previously
held at the output path — including none at all — the path afterwards holds
exactly the newly generated lines; other paths are untouched. -/
theorem claim_C7_truncate (a path : String) (draws : Nat → Nat) (z : Int)
    (h : pyInt a = some z) (fs : String → Option (List Char)) :
    applyRun fs (gen_stimuli [a, path] draws) path
      = some (outputChars z.toNat draws) ∧
    ∀ q, q ≠ path → applyRun fs (gen_stimuli [a, path] draws) q = fs q := by
  have key : (gen_stimuli [a, path] draws).file
      = some (path, outputChars z.toNat draws) := by
    simp [gen_stimuli, h]
  constructor
  · unfold applyRun
    rw [key]
    simp
  · intro q hq
    unfold applyRun
    rw [key]
    simp [hq]

theorem claim_C7_witness :
    pyInt "1" = some (1 : Int) ∧
    (applyRun (fun _ => some ['x']) (gen_stimuli ["1", "data.txt"] (fun _ => 0)) "data.txt"
      = some (outputChars (Int.toNat 1) (fun _ => 0)) ∧
     ∀ q, q ≠ "data.txt" →
       applyRun (fun _ => some ['x']) (gen_stimuli ["1", "data.txt"] (fun _ => 0)) q
         = some ['x']) :=
  ⟨by decide, claim_C7_truncate "1" "data.txt" (fun _ => 0) 1 (by decide) (fun _ => some ['x'])⟩

/-- C8: every line of the output file is at most 8 hex digits long, because
every generated value is at most `2 ^ 32 - 1`. -/
theorem claim_C8_line_length (sizeArg path : String) (draws : Nat → Nat) (z : Int)
    (h : pyInt sizeArg = some z) (hd : ∀ i, draws i ≤ 2 ^ 32 - 1) :
    ∃ content, (gen_stimuli [sizeArg, path] draws).file = some (path, content) ∧
      ∀ line ∈ splitLines content, line.length ≤ 8 := by
  refine ⟨outputChars z.toNat draws, by simp [gen_stimuli, h], ?_⟩
  intro line hline
  rw [splitLines_outputChars] at hline
  simp at hline
  obtain ⟨i, hi, rfl⟩ := hline
  refine hexChars_length_le (draws i) ?_
  have := hd i
  norm_num at this ⊢
  omega

theorem claim_C8_witness :
    pyInt "4" = some (4 : Int) ∧ (∀ i : Nat, (fun _ => 0) i ≤ 2 ^ 32 - 1) ∧
    (∃ content, (gen_stimuli ["4", "out.txt"] (fun _ => 0)).file
        = some ("out.txt", content) ∧
      ∀ line ∈ splitLines content, line.length ≤ 8) :=
  ⟨by decide, fun i => Nat.zero_le _,
    claim_C8_line_length "4" "out.txt" (fun _ => 0) 4 (by decide) (fun i => Nat.zero_le _)⟩

/-- C9: a negative parsed count is not reported as an error: the run exits 0
and the output file is created or truncated to an empty, zero-line file,
exactly as for count 0 (`range` of a negative number is empty). -/
theorem claim_C9_negative (a path : String) (draws : Nat → Nat) (z : Int)
    (h : pyInt a = some z) (hz : z < 0) :
    gen_stimuli [a, path] draws
      = { exitCode := 0, printed := [], file := some (path, []) } := by
  have htn : z.toNat = 0 := Int.toNat_of_nonpos (le_of_lt hz)
  simp [gen_stimuli, h, htn]
  exact outputChars_zero draws

theorem claim_C9_witness :
    pyInt "-5" = some (-5 : Int) ∧ ((-5 : Int) < 0) ∧
    gen_stimuli ["-5", "out.txt"] (fun _ => 0)
      = { exitCode := 0, printed := [], file := some ("out.txt", []) } :=
  ⟨by decide, by decide,
    claim_C9_negative "-5" "out.txt" (fun _ => 0) (-5) (by decide) (by decide)⟩

/-- C10: the count is parsed with Python's `int()`, which is more lenient
than bare decimal digits: surrounding whitespace, a leading sign, and
underscore separators all parse, and such a run proceeds normally. -/
theorem claim_C10_lenient_parse :
    pyInt " 10 " = some (10 : Int) ∧
    pyInt "+10" = some (10 : Int) ∧
    pyInt "1_0" = some (10 : Int) ∧
    (gen_stimuli [" 10 ", "out.txt"] (fun _ => 0)).exitCode = 0 ∧
    (gen_stimuli ["+10", "out.txt"] (fun _ => 0)).exitCode = 0 ∧
    (gen_stimuli ["1_0", "out.txt"] (fun _ => 0)).exitCode = 0 ∧
    (splitLines (outputChars 10 (fun _ => 0))).length = 10 := by
  refine ⟨by decide, by decide, by decide, by decide, by decide, by decide, by decide⟩

end GenStimuli
